import Mathlib

/-!
Verification of the image-processing pipeline core: the wire codec
(encodeAsJPEG / parseSimpleImage), the transform engine
(bilinearInterpolate / resizeImage / convertToGrayscale and the
dimension clamp inside ProcessImage), and the task-distributor
bookkeeping of index.js.

Modelling conventions:
- C++ int is modelled as unbounded Int; signed overflow is undefined
  behaviour in the source, so theorems carry explicit range hypotheses
  (fields below 2^31) where the header is involved.
- Byte vectors are List Nat, with byte range (< 256) as a hypothesis
  where a claim needs it.
- IEEE-754 binary32 arithmetic is modelled exactly by dyadic numbers
  (the Dy type, mantissa times a power of two) with round-to-nearest-
  even (roundDy): the grayscale weights and sums, the dimension
  computation, and the sample-coordinate computation of resizeImage all
  go through this model, since their claims hinge on rounding; the
  blend arithmetic inside the bilinear interpolator is modelled with
  exact rational arithmetic, noted at each theorem where that rounding
  cannot change the stated result.
-/

/-- Mirror of struct ImageData (image_processor.cpp lines 190-195):
a raw pixel buffer with its dimensions. -/
structure ImageData where
  data : List Nat
  width : Int
  height : Int
  channels : Int
deriving DecidableEq, Repr

/-- Mirror of the readInt lambda (image_processor.cpp lines 315-318):
reassembles a big-endian int32 from four bytes, two's complement.
The source shifts uint8 values promoted to int; a leading byte of 128
or more lands in the sign bit, giving the value minus 2^32. -/
def readIntAt (l : List Nat) (off : Nat) : Int :=
  let n : Nat := l.getD off 0 * 2 ^ 24 + l.getD (off + 1) 0 * 2 ^ 16 +
    l.getD (off + 2) 0 * 2 ^ 8 + l.getD (off + 3) 0
  if n < 2 ^ 31 then (n : Int) else (n : Int) - 2 ^ 32

/-- Mirror of the writeInt lambda (image_processor.cpp lines 286-291):
big-endian bytes of an int32. Every call site passes a nonnegative
field, for which the shift-and-mask sequence is plain division. -/
def writeInt (v : Int) : List Nat :=
  [v.toNat / 2 ^ 24 % 256, v.toNat / 2 ^ 16 % 256, v.toNat / 2 ^ 8 % 256,
    v.toNat % 256]

/-- Mirror of encodeAsJPEG (image_processor.cpp lines 279-303):
12-byte header (width, height, channels) followed by the raw data. -/
def encodeAsJPEG (image : ImageData) : List Nat :=
  writeInt image.width ++ writeInt image.height ++ writeInt image.channels ++
    image.data

/-- Mirror of the payload step of parseSimpleImage (image_processor.cpp
lines 339-346): with header fields already chosen, compute
expectedSize = 12 + width*height*channels; if the input is long enough
take exactly the payload slice, otherwise fall back to using the whole
input (header bytes included) as pixel data. -/
def mkParsed (l : List Nat) (w h c : Int) : ImageData :=
  let expected : Nat := 12 + (w * h * c).toNat
  if expected ≤ l.length then ⟨(l.drop 12).take (expected - 12), w, h, c⟩
  else ⟨l, w, h, c⟩

/-- Mirror of parseSimpleImage (image_processor.cpp lines 307-349):
reject inputs shorter than 12 bytes; read the big-endian header; on an
implausible header fall back to guessed dimensions (width 100, RGB,
height from the byte count, with a second guess when that height is
zero); then slice the payload via mkParsed. -/
def parseSimpleImage (l : List Nat) : Except String ImageData :=
  if l.length < 12 then Except.error "Invalid image data: too small"
  else
    let w0 := readIntAt l 0
    let h0 := readIntAt l 4
    let c0 := readIntAt l 8
    if w0 ≤ 0 ∨ h0 ≤ 0 ∨ c0 ≤ 0 ∨ 4 < c0 then
      let h1 : Int := ((l.length / (100 * 3) : Nat) : Int)
      if h1 ≤ 0 then Except.ok (mkParsed l ((l.length / (100 * 3) : Nat) : Int) 100 3)
      else Except.ok (mkParsed l 100 h1 3)
    else Except.ok (mkParsed l w0 h0 c0)

instance : DecidableEq (Except String ImageData) :=
  fun a b =>
    match a, b with
    | .error x, .error y =>
      if h : x = y then .isTrue (by rw [h]) else .isFalse (by simp [h])
    | .ok x, .ok y =>
      if h : x = y then .isTrue (by rw [h]) else .isFalse (by simp [h])
    | .error _, .ok _ => .isFalse (by simp)
    | .ok _, .error _ => .isFalse (by simp)

example : parseSimpleImage [0, 0] = Except.error "Invalid image data: too small" := by decide

example :
    parseSimpleImage [0, 0, 0, 1, 0, 0, 0, 1, 0, 0, 0, 1, 9] =
      Except.ok ⟨[9], 1, 1, 1⟩ := by decide

example :
    parseSimpleImage [0, 0, 0, 1, 0, 0, 0, 1, 0, 0, 0, 1] =
      Except.ok ⟨[0, 0, 0, 1, 0, 0, 0, 1, 0, 0, 0, 1], 1, 1, 1⟩ := by decide

example :
    parseSimpleImage (encodeAsJPEG ⟨[7], 1, 1, 1⟩) = Except.ok ⟨[7], 1, 1, 1⟩ := by
  decide

/-- Truncation toward zero of a rational, the semantics of a C++
static_cast from a floating value to an integer type. -/
def truncQ (q : Rat) : Int :=
  if q < 0 then -⌊-q⌋ else ⌊q⌋

/-- Conversion of a nonnegative floating value to uint8_t: truncate
toward zero, then keep the low byte. In-range values (the only defined
ones in C++) pass through unchanged. -/
def uint8cast (q : Rat) : Nat :=
  (truncQ q).toNat % 256

/-- Dyadic number: the value m times 2 to the e. Every binary32 value
is of this shape, so this type carries the exact float model used for
the grayscale weights and the dimension computation. Exponent width and
subnormals are not modelled; all values in this development stay far
inside the binary32 range. -/
structure Dy where
  m : Int
  e : Int
deriving DecidableEq, Repr

/-- Bit length of a natural number, with explicit fuel so that the
kernel can evaluate it; 300 steps cover every value in range. -/
def bitlen : Nat → Nat → Nat
  | 0, _ => 0
  | f + 1, n => if n = 0 then 0 else 1 + bitlen f (n / 2)

/-- Round a dyadic value to 24 significand bits, nearest-even ties:
the IEEE-754 default rounding applied by every float operation in the
source. A value already on 24 bits is returned unchanged. -/
def roundDy (d : Dy) : Dy :=
  let a := d.m.natAbs
  let len := bitlen 300 a
  if len ≤ 24 then d
  else
    let k := len - 24
    let q := a / 2 ^ k
    let r := a % 2 ^ k
    let half := 2 ^ (k - 1)
    let m : Nat :=
      if r < half then q else if half < r then q + 1
      else if q % 2 = 0 then q else q + 1
    ⟨(m : Int) * d.m.sign, d.e + k⟩

/-- Exact sum of two dyadic values, on the common smaller exponent. -/
def addDy (a b : Dy) : Dy :=
  let e := min a.e b.e
  ⟨a.m * 2 ^ (a.e - e).toNat + b.m * 2 ^ (b.e - e).toNat, e⟩

/-- Binary32 addition: exact sum followed by rounding. -/
def addF32 (a b : Dy) : Dy := roundDy (addDy a b)

/-- Binary32 multiplication: exact product followed by rounding. -/
def mulF32 (a b : Dy) : Dy := roundDy ⟨a.m * b.m, a.e + b.e⟩

/-- Smallest scale s with target at most x times 2 to the s, found by
fuelled doubling; used to normalize a quotient before rounding it. -/
def findScale : Nat → Nat → Nat → Nat
  | 0, _, _ => 0
  | f + 1, x, t => if t ≤ x then 0 else 1 + findScale f (2 * x) t

/-- Binary32 division, round to nearest even: scale the dividend until
the integer quotient carries 24 bits, divide, and round on the exact
remainder. Division by zero yields zero here; the source never divides
by zero on the paths the theorems cover. -/
def fdivF32 (a b : Dy) : Dy :=
  if a.m = 0 ∨ b.m = 0 then ⟨0, 0⟩
  else
    let den := b.m.natAbs
    let s := findScale 300 a.m.natAbs (2 ^ 23 * den)
    let bigN := a.m.natAbs * 2 ^ s
    let q := bigN / den
    let r := bigN % den
    let m : Nat :=
      if 2 * r < den then q else if den < 2 * r then q + 1
      else if q % 2 = 0 then q else q + 1
    roundDy ⟨(m : Int) * (a.m.sign * b.m.sign), a.e - b.e - s⟩

/-- Conversion of an integer to float without rounding; used where the
operand is a byte or a small dimension, for which the conversion in
the source is exact, on the inputs the theorems evaluate. -/
def dyOfInt (n : Int) : Dy := ⟨n, 0⟩

/-- Conversion of an integer to float with the rounding the hardware
applies: exact below 2 to the 24, rounded to nearest even above (for
example 2^24 + 1 converts to 2^24). The resize loop indices need this
rounding, so resizeImage uses it. -/
def floatOfInt (n : Int) : Dy := roundDy ⟨n, 0⟩

/-- Exact rational value of a dyadic float. -/
def Dy.toRat (d : Dy) : Rat :=
  if 0 ≤ d.e then (d.m : Rat) * 2 ^ d.e.toNat else (d.m : Rat) / 2 ^ (-d.e).toNat

/-- Truncation of a dyadic value toward zero, the semantics of a C++
static_cast from float to an integer type. -/
def truncDy (d : Dy) : Int :=
  if 0 ≤ d.e then d.m * 2 ^ d.e.toNat
  else (d.m.natAbs / 2 ^ (-d.e).toNat : Nat) * d.m.sign

/-- Conversion of a nonnegative float to uint8_t: truncate toward
zero, keep the low byte. In-range values pass through unchanged. -/
def dyToByte (d : Dy) : Nat := (truncDy d).toNat % 256

/-- Value of the float literal 0.299f: the decimal literal rounded to
the nearest binary32 value. -/
def w299 : Dy := fdivF32 (dyOfInt 299) (dyOfInt 1000)

/-- Value of the float literal 0.587f. -/
def w587 : Dy := fdivF32 (dyOfInt 587) (dyOfInt 1000)

/-- Value of the float literal 0.114f. -/
def w114 : Dy := fdivF32 (dyOfInt 114) (dyOfInt 1000)

example : w299 = ⟨10032775, -25⟩ := by decide
example : w587 = ⟨9848226, -24⟩ := by decide
example : w114 = ⟨15300821, -27⟩ := by decide

/-- Mirror of the per-pixel luminance computation of convertToGrayscale
(image_processor.cpp line 267): single-precision evaluation of
0.299f*r + 0.587f*g + 0.114f*b left to right, every product and sum
rounded to binary32, then cast to uint8_t (truncation toward zero). -/
def grayF32 (r g b : Nat) : Nat :=
  dyToByte (addF32 (addF32 (mulF32 w299 (dyOfInt r)) (mulF32 w587 (dyOfInt g)))
    (mulF32 w114 (dyOfInt b)))

example : grayF32 255 0 0 = 76 := by decide
example : grayF32 0 255 0 = 149 := by decide
example : grayF32 0 0 255 = 29 := by decide
example : grayF32 8 80 32 = 52 := by decide
example : grayF32 255 255 255 = 255 := by decide

/-- Mirror of convertToGrayscale (image_processor.cpp lines 252-276):
one output byte per pixel; with three or more channels apply the
luminance formula to the first three channels of the pixel, otherwise
copy the sole channel, the per-pixel stride being the source channel
count in both cases. -/
def convertToGrayscale (input : ImageData) : ImageData :=
  { data :=
      (List.range (input.width * input.height).toNat).map fun i =>
        if 3 ≤ input.channels then
          grayF32 (input.data.getD (i * input.channels.toNat) 0)
            (input.data.getD (i * input.channels.toNat + 1) 0)
            (input.data.getD (i * input.channels.toNat + 2) 0)
        else input.data.getD (i * input.channels.toNat) 0
    width := input.width
    height := input.height
    channels := 1 }

example : convertToGrayscale ⟨[8, 80, 32], 1, 1, 3⟩ = ⟨[52], 1, 1, 1⟩ := by decide
example : convertToGrayscale ⟨[7, 9], 2, 1, 1⟩ = ⟨[7, 9], 2, 1, 1⟩ := by decide

/-- Mirror of bilinearInterpolate (image_processor.cpp lines 198-221).
The float sample coordinates and blend arithmetic are modelled by exact
rationals: every binary32 value is a rational, so the domain is covered,
and the fractional offsets dx and dy are exact in binary32 as well
(subtracting the integer part of a float is exact). The products and
sums would be rounded in binary32; the rounding moves the blend by less
than one part in a million of a byte and cannot reach a new integer at
the coordinates any theorem below evaluates, so the blend is modelled
exactly. Out-of-range reads return 0 in the source (the defensive
branch); the in-bounds reads are List.getD with default 0. -/
def bilinearInterpolate (data : List Nat) (width height channels : Int)
    (x y : Rat) (channel : Int) : Nat :=
  let x1 : Int := ⌊x⌋
  let y1 : Int := ⌊y⌋
  let x2 : Int := min (x1 + 1) (width - 1)
  let y2 : Int := min (y1 + 1) (height - 1)
  let dx : Rat := x - (x1 : Rat)
  let dy : Rat := y - (y1 : Rat)
  let px : Int → Int → Rat := fun a b =>
    if a < 0 ∨ width ≤ a ∨ b < 0 ∨ height ≤ b then 0
    else (data.getD ((b * width + a) * channels + channel).toNat 0 : Rat)
  let top : Rat := px x1 y1 * (1 - dx) + px x2 y1 * dx
  let bottom : Rat := px x1 y2 * (1 - dx) + px x2 y2 * dx
  uint8cast (top * (1 - dy) + bottom * dy)

/-- Variant of bilinearInterpolate with the defensive bounds branch and
the low-byte wrap removed: it indexes the data directly and truncates
the blend. Stating that the source function coincides with this variant
expresses that the defensive branch is never taken and the cast never
wraps. -/
def bilinearRaw (data : List Nat) (width height channels : Int)
    (x y : Rat) (channel : Int) : Nat :=
  let x1 : Int := ⌊x⌋
  let y1 : Int := ⌊y⌋
  let x2 : Int := min (x1 + 1) (width - 1)
  let y2 : Int := min (y1 + 1) (height - 1)
  let dx : Rat := x - (x1 : Rat)
  let dy : Rat := y - (y1 : Rat)
  let px : Int → Int → Rat := fun a b =>
    (data.getD ((b * width + a) * channels + channel).toNat 0 : Rat)
  let top : Rat := px x1 y1 * (1 - dx) + px x2 y1 * dx
  let bottom : Rat := px x1 y2 * (1 - dx) + px x2 y2 * dx
  (truncQ (top * (1 - dy) + bottom * dy)).toNat

/-- Mirror of resizeImage (image_processor.cpp lines 224-249). The
source loops y over the new height, x over the new width and c over the
channels, writing each sample to flat index (y*newWidth + x)*channels + c,
which is exactly position y*(newWidth*channels) + x*channels + c of the
output vector; the list below enumerates those positions in order, with
y = i / (W*C), x = i / C % W and c = i % C. The scale factors are the
binary32 quotients width/newWidth and height/newHeight (both ints
converted to binary32 first), and each sample coordinate is the binary32
product of the loop index, itself converted to binary32 with rounding
(srcX = x * xRatio in the source), with the scale factor; the rational
value of that float feeds the interpolator. -/
def resizeImage (input : ImageData) (newWidth newHeight : Int) : ImageData :=
  let W := newWidth.toNat
  let C := input.channels.toNat
  let xr : Dy := fdivF32 (floatOfInt input.width) (floatOfInt newWidth)
  let yr : Dy := fdivF32 (floatOfInt input.height) (floatOfInt newHeight)
  { data :=
      (List.range (newHeight.toNat * (W * C))).map fun i =>
        bilinearInterpolate input.data input.width input.height input.channels
          (Dy.toRat (mulF32 (floatOfInt ((i / C % W : Nat) : Int)) xr))
          (Dy.toRat (mulF32 (floatOfInt ((i / (W * C) : Nat) : Int)) yr))
          ((i % C : Nat) : Int)
    width := newWidth
    height := newHeight
    channels := input.channels }

/-- Mirror of the dimension computation inside ProcessImage
(image_processor.cpp lines 384-398): the aspect ratio is the float
quotient width/height; a width above maxWidth is clamped to maxWidth
with the height scaled through the float division maxWidth/aspect and
truncated; a resulting height above maxHeight is clamped to maxHeight
with the width rescaled through the float product maxHeight*aspect and
truncated. Every float step is the exact binary32 model. -/
def computeTargetDims (w h maxW maxH : Int) : Int × Int :=
  let aspect : Dy := fdivF32 (dyOfInt w) (dyOfInt h)
  let p1 : Int × Int :=
    if maxW < w then (maxW, truncDy (fdivF32 (dyOfInt maxW) aspect)) else (w, h)
  if maxH < p1.2 then (truncDy (mulF32 (dyOfInt maxH) aspect), maxH) else p1

example : computeTargetDims 200 100 100 100 = (100, 50) := by decide
example : computeTargetDims 1000 1 100 100 = (100, 0) := by decide
example : computeTargetDims 1 1000 100 100 = (0, 100) := by decide
example : computeTargetDims 50 60 100 100 = (50, 60) := by decide

/-- Reply a worker sends back for a job: the success record carries the
output path pushed by the distributor, the failure record the error
message (index.js lines 99-105). -/
inductive JobResult where
  | success (outputPath : String)
  | failure (msg : String)
deriving DecidableEq, Repr

/-- Distributor-side state touched by processImageWithWorker
(index.js lines 75-121), for one worker: the activeJobs and
completedJobs counters and the processedImages list of the
ImageProcessor, the message and error listeners currently attached to
the worker (identified by the job that attached them, in attach order),
and the settlement ledger of the per-job promises: the first settlement
of each job, in settlement order, as (job, fulfilled, payload). -/
structure DistState where
  activeJobs : Int
  completedJobs : Nat
  processedImages : List String
  msgListeners : List Nat
  errListeners : List Nat
  settled : List (Nat × Bool × String)
deriving DecidableEq, Repr

/-- Settle the promise of a job: a promise keeps its first settlement,
every later resolve or reject is a no-op. -/
def settleJob (s : DistState) (j : Nat) (fulfilled : Bool) (payload : String) :
    DistState :=
  if s.settled.any fun p => p.1 = j then s
  else { s with settled := s.settled ++ [(j, fulfilled, payload)] }

/-- Mirror of the body of processImageWithWorker up to postMessage
(index.js lines 75-119): increment activeJobs, attach a fresh message
handler and error handler for this job, arm the timeout. -/
def dispatchJob (s : DistState) (j : Nat) : DistState :=
  { s with
    activeJobs := s.activeJobs + 1
    msgListeners := s.msgListeners ++ [j]
    errListeners := s.errListeners ++ [j] }

/-- Mirror of the timeout callback (index.js lines 85-89): reject the
promise of the job. Nothing else happens: the handlers stay attached to
the worker and the counters are untouched. -/
def fireTimeout (s : DistState) (j : Nat) (msg : String) : DistState :=
  settleJob s j false msg

/-- Mirror of one messageHandler invocation (index.js lines 91-106) for
the handler that job j attached, receiving worker reply res: clear the
timeout, detach this message handler and its error handler, decrement
activeJobs, increment completedJobs; on a success reply push the
outputPath onto processedImages and resolve the promise of j with it,
on a failure reply reject the promise of j. -/
def runMessageHandler (s : DistState) (j : Nat) (res : JobResult) : DistState :=
  let s' := { s with
    msgListeners := s.msgListeners.erase j
    errListeners := s.errListeners.erase j
    activeJobs := s.activeJobs - 1
    completedJobs := s.completedJobs + 1 }
  match res with
  | .success out =>
    settleJob { s' with processedImages := s'.processedImages ++ [out] } j true out
  | .failure m => settleJob s' j false m

/-- Delivery of one worker reply: the message event runs every message
handler attached at emit time, in attach order. -/
def workerReply (s : DistState) (res : JobResult) : DistState :=
  s.msgListeners.foldl (fun st j => runMessageHandler st j res) s

/-- Scheduler-visible events of one worker of the distributor. -/
inductive DistEvent where
  | dispatch (j : Nat)
  | timeout (j : Nat) (msg : String)
  | reply (res : JobResult)

/-- Run a sequence of distributor events from a state. -/
def runEvents (s : DistState) : List DistEvent → DistState
  | [] => s
  | e :: es =>
    match e with
    | .dispatch j => runEvents (dispatchJob s j) es
    | .timeout j msg => runEvents (fireTimeout s j msg) es
    | .reply res => runEvents (workerReply s res) es

/-- Distributor state before any job is dispatched. -/
def state0 : DistState := ⟨0, 0, [], [], [], []⟩

/-- Sequential model of processWorkerQueue together with the
result handling of processImageWithWorker (index.js lines 57-73 and
91-106) for one worker whose replies arrive before the timeout: each
job of the queue is awaited in turn; a success pushes its outputPath
onto processedImages, a rejection is caught in processWorkerQueue and
only logged; processImageQueue then returns processedImages
(index.js line 54). -/
def processQueueModel (outcomes : List JobResult) : List String :=
  outcomes.foldl
    (fun acc r => match r with | .success out => acc ++ [out] | .failure _ => acc)
    []

example : processQueueModel [.success "a", .failure "x", .success "b"] = ["a", "b"] := by
  decide

/-- PixelBuffer invariant of the spec: the byte count is exactly
width times height times channels. -/
def wfBuf (img : ImageData) : Prop :=
  img.data.length = (img.width * img.height * img.channels).toNat

instance (img : ImageData) : Decidable (wfBuf img) := by
  unfold wfBuf; infer_instance

theorem getD_byte_lt (l : List Nat) (i : Nat) (hb : ∀ b ∈ l, b < 256) :
    l.getD i 0 < 256 := by
  by_cases h : i < l.length
  · rw [List.getD_eq_getElem l 0 h]
    exact hb _ (List.getElem_mem h)
  · rw [List.getD_eq_default l 0 (by omega)]
    omega

theorem map_range_getD (l : List Nat) :
    (List.range l.length).map (fun i => l.getD i 0) = l := by
  induction l with
  | nil => rfl
  | cons a t ih =>
    rw [List.length_cons, List.range_succ_eq_map, List.map_cons, List.map_map]
    simp only [List.getD_cons_zero, Function.comp_def, List.getD_cons_succ]
    rw [ih]

theorem idx_decomp (i W C : Nat) :
    (i / (W * C) * W + i / C % W) * C + i % C = i := by
  rw [Nat.mul_comm W C, ← Nat.div_div_eq_div_mul]
  conv_rhs => rw [← Nat.div_add_mod i C, ← Nat.div_add_mod (i / C) W]
  ring

theorem toNat_mul3 (a b c : Int) (ha : 0 ≤ a) (hb : 0 ≤ b) (hc : 0 ≤ c) :
    (a * b * c).toNat = a.toNat * b.toNat * c.toNat := by
  lift a to ℕ using ha
  lift b to ℕ using hb
  lift c to ℕ using hc
  rw [← Nat.cast_mul, ← Nat.cast_mul, Int.toNat_natCast, Int.toNat_natCast,
    Int.toNat_natCast, Int.toNat_natCast]

theorem readIntAt_writeInt (v : Int) (rest : List Nat) (h0 : 0 ≤ v)
    (h31 : v < 2 ^ 31) : readIntAt (writeInt v ++ rest) 0 = v := by
  have e0 : (writeInt v ++ rest)[0]?.getD 0 = v.toNat / 2 ^ 24 % 256 := by simp [writeInt]
  have e1 : (writeInt v ++ rest)[1]?.getD 0 = v.toNat / 2 ^ 16 % 256 := by simp [writeInt]
  have e2 : (writeInt v ++ rest)[2]?.getD 0 = v.toNat / 2 ^ 8 % 256 := by simp [writeInt]
  have e3 : (writeInt v ++ rest)[3]?.getD 0 = v.toNat % 256 := by simp [writeInt]
  simp only [readIntAt]
  norm_num
  rw [e0, e1, e2, e3]
  split <;> omega

theorem encode_length (img : ImageData) :
    (encodeAsJPEG img).length = 12 + img.data.length := by
  simp [encodeAsJPEG, writeInt]
  omega

theorem encode_drop12 (img : ImageData) :
    (encodeAsJPEG img).drop 12 = img.data := rfl

theorem encode_read0 (img : ImageData) (h0 : 0 ≤ img.width)
    (h31 : img.width < 2 ^ 31) : readIntAt (encodeAsJPEG img) 0 = img.width := by
  have e0 : (encodeAsJPEG img)[0]?.getD 0 = img.width.toNat / 2 ^ 24 % 256 := by simp [encodeAsJPEG, writeInt]
  have e1 : (encodeAsJPEG img)[1]?.getD 0 = img.width.toNat / 2 ^ 16 % 256 := by simp [encodeAsJPEG, writeInt]
  have e2 : (encodeAsJPEG img)[2]?.getD 0 = img.width.toNat / 2 ^ 8 % 256 := by simp [encodeAsJPEG, writeInt]
  have e3 : (encodeAsJPEG img)[3]?.getD 0 = img.width.toNat % 256 := by simp [encodeAsJPEG, writeInt]
  simp only [readIntAt]
  norm_num
  rw [e0, e1, e2, e3]
  split <;> omega

theorem encode_read4 (img : ImageData) (h0 : 0 ≤ img.height)
    (h31 : img.height < 2 ^ 31) : readIntAt (encodeAsJPEG img) 4 = img.height := by
  have e0 : (encodeAsJPEG img)[4]?.getD 0 = img.height.toNat / 2 ^ 24 % 256 := by simp [encodeAsJPEG, writeInt]
  have e1 : (encodeAsJPEG img)[5]?.getD 0 = img.height.toNat / 2 ^ 16 % 256 := by simp [encodeAsJPEG, writeInt]
  have e2 : (encodeAsJPEG img)[6]?.getD 0 = img.height.toNat / 2 ^ 8 % 256 := by simp [encodeAsJPEG, writeInt]
  have e3 : (encodeAsJPEG img)[7]?.getD 0 = img.height.toNat % 256 := by simp [encodeAsJPEG, writeInt]
  simp only [readIntAt]
  norm_num
  rw [e0, e1, e2, e3]
  split <;> omega

theorem encode_read8 (img : ImageData) (h0 : 0 ≤ img.channels)
    (h31 : img.channels < 2 ^ 31) :
    readIntAt (encodeAsJPEG img) 8 = img.channels := by
  have e0 : (encodeAsJPEG img)[8]?.getD 0 = img.channels.toNat / 2 ^ 24 % 256 := by simp [encodeAsJPEG, writeInt]
  have e1 : (encodeAsJPEG img)[9]?.getD 0 = img.channels.toNat / 2 ^ 16 % 256 := by simp [encodeAsJPEG, writeInt]
  have e2 : (encodeAsJPEG img)[10]?.getD 0 = img.channels.toNat / 2 ^ 8 % 256 := by simp [encodeAsJPEG, writeInt]
  have e3 : (encodeAsJPEG img)[11]?.getD 0 = img.channels.toNat % 256 := by simp [encodeAsJPEG, writeInt]
  simp only [readIntAt]
  norm_num
  rw [e0, e1, e2, e3]
  split <;> omega

theorem mkParsed_long (l : List Nat) (w h c : Int)
    (hle : 12 + (w * h * c).toNat ≤ l.length) :
    mkParsed l w h c = ⟨(l.drop 12).take ((w * h * c).toNat), w, h, c⟩ := by
  unfold mkParsed
  rw [if_pos hle]
  simp

theorem mkParsed_short (l : List Nat) (w h c : Int)
    (hlt : l.length < 12 + (w * h * c).toNat) :
    mkParsed l w h c = ⟨l, w, h, c⟩ := by
  unfold mkParsed
  rw [if_neg (by omega)]

theorem parse_spec (l : List Nat) (h12 : 12 ≤ l.length)
    (hw : 0 < readIntAt l 0) (hh : 0 < readIntAt l 4)
    (hc : 0 < readIntAt l 8) (hc4 : readIntAt l 8 ≤ 4) :
    parseSimpleImage l =
      Except.ok (mkParsed l (readIntAt l 0) (readIntAt l 4) (readIntAt l 8)) := by
  unfold parseSimpleImage
  rw [if_neg (by omega), if_neg (by omega)]

/-- C1: decoding the encoding of any valid PixelBuffer returns the
buffer unchanged, same dimensions, same channel count, identical
bytes, provided the header fields are positive, the channel count is
at most 4, the fields are representable as 32-bit integers and the
byte length equals width times height times channels. -/
theorem decode_encode_id (img : ImageData)
    (hw : 1 ≤ img.width) (hh : 1 ≤ img.height)
    (hc : 1 ≤ img.channels) (hc4 : img.channels ≤ 4)
    (hw31 : img.width < 2 ^ 31) (hh31 : img.height < 2 ^ 31)
    (hc31 : img.channels < 2 ^ 31)
    (hlen : img.data.length = (img.width * img.height * img.channels).toNat) :
    parseSimpleImage (encodeAsJPEG img) = Except.ok img := by
  have r0 : readIntAt (encodeAsJPEG img) 0 = img.width :=
    encode_read0 img (by omega) hw31
  have r4 : readIntAt (encodeAsJPEG img) 4 = img.height :=
    encode_read4 img (by omega) hh31
  have r8 : readIntAt (encodeAsJPEG img) 8 = img.channels :=
    encode_read8 img (by omega) hc31
  have hl : (encodeAsJPEG img).length = 12 + img.data.length := encode_length img
  rw [parse_spec (encodeAsJPEG img) (by omega) (by omega) (by omega) (by omega)
    (by omega), r0, r4, r8,
    mkParsed_long (encodeAsJPEG img) img.width img.height img.channels
      (by omega)]
  rw [encode_drop12, ← hlen, List.take_length]

/-- C1 witness: the round trip evaluated on a concrete one-pixel
grayscale buffer. -/
theorem decode_encode_id_witness :
    parseSimpleImage (encodeAsJPEG ⟨[7], 1, 1, 1⟩) = Except.ok ⟨[7], 1, 1, 1⟩ :=
  decode_encode_id ⟨[7], 1, 1, 1⟩ (by decide) (by decide) (by decide) (by decide)
    (by decide) (by decide) (by decide) (by decide)

/-- C2 counterexample: a 12-byte input whose header is valid (1 by 1,
one channel) and whose total length is below the expected 13 bytes
does not fail at all: parseSimpleImage returns a buffer whose payload
is the entire input, header bytes included, instead of failing with a
truncated-payload error as the claim states. -/
theorem parse_truncated_payload_no_error :
    parseSimpleImage [0, 0, 0, 1, 0, 0, 0, 1, 0, 0, 0, 1] =
      Except.ok ⟨[0, 0, 0, 1, 0, 0, 0, 1, 0, 0, 0, 1], 1, 1, 1⟩ := by decide

/-- C2 amended: inputs shorter than 12 bytes fail with the
too-small error; for a valid header and total length at least
expected = 12 + width*height*channels the payload is exactly the slice
from byte 12 to expected, trailing bytes ignored; but for a valid
header and total length below expected the decoder does not fail: it
returns a buffer whose payload is the whole input, header included. -/
theorem parse_failure_contract (l : List Nat) :
    (l.length < 12 → parseSimpleImage l = Except.error "Invalid image data: too small") ∧
    (12 ≤ l.length → 0 < readIntAt l 0 → 0 < readIntAt l 4 → 0 < readIntAt l 8 →
      readIntAt l 8 ≤ 4 →
      (12 + (readIntAt l 0 * readIntAt l 4 * readIntAt l 8).toNat ≤ l.length →
        parseSimpleImage l = Except.ok
          ⟨(l.drop 12).take ((readIntAt l 0 * readIntAt l 4 * readIntAt l 8).toNat),
            readIntAt l 0, readIntAt l 4, readIntAt l 8⟩) ∧
      (l.length < 12 + (readIntAt l 0 * readIntAt l 4 * readIntAt l 8).toNat →
        parseSimpleImage l = Except.ok
          ⟨l, readIntAt l 0, readIntAt l 4, readIntAt l 8⟩)) := by
  refine ⟨fun hshort => ?_, fun h12 hw hh hc hc4 => ⟨fun hle => ?_, fun hlt => ?_⟩⟩
  · unfold parseSimpleImage
    rw [if_pos hshort]
  · rw [parse_spec l h12 hw hh hc hc4, mkParsed_long l _ _ _ hle]
  · rw [parse_spec l h12 hw hh hc hc4, mkParsed_short l _ _ _ hlt]

/-- C2 witness: the contract evaluated on a 16-byte input with header
1 by 1, one channel: the payload is byte 12 and the three trailing
bytes are ignored. -/
theorem parse_failure_contract_witness :
    parseSimpleImage [0, 0, 0, 1, 0, 0, 0, 1, 0, 0, 0, 1, 9, 7, 7, 7] =
      Except.ok ⟨[9], 1, 1, 1⟩ := by
  have h := (parse_failure_contract [0, 0, 0, 1, 0, 0, 0, 1, 0, 0, 0, 1, 9, 7, 7, 7]).2
    (by decide) (by decide) (by decide) (by decide) (by decide)
  have h2 := h.1 (by decide)
  rw [h2]
  decide

/-- C3: the dimension computation of ProcessImage evaluated on a 1000
by 1 source with bounds 100 by 100: all four inputs are positive, yet
the clamping computation returns height 0 because the proportional
height maxW divided by the aspect ratio truncates to zero, violating
the claim that the result is always strictly positive. -/
theorem target_dims_zero_height :
    computeTargetDims 1000 1 100 100 = (100, 0) ∧
    ¬ 0 < (computeTargetDims 1000 1 100 100).2 := by decide

/-- C4: a trace of the distributor with one worker refuting the
late-reply discard claim. Job 1 is dispatched, its 30-second timeout
fires (the promise of job 1 is rejected, but the message handler job 1
attached stays on the worker), job 2 is dispatched to the same worker,
then the worker finally replies to job 1 with a success carrying
output path outA. The message event runs both attached handlers: the
stale handler of job 1 and the fresh handler of job 2. The final state
shows completedJobs incremented twice by the single late reply, outA
pushed onto processedImages twice, and the promise of job 2 resolved
with the reply of job 1, contradicting the claim that a late reply is
a discarded no-op that never alters bookkeeping and is never delivered
as the result of a different job. -/
theorem late_reply_corrupts_bookkeeping :
    runEvents state0
      [.dispatch 1, .timeout 1 "Worker 0 timeout processing img1",
       .dispatch 2, .reply (.success "outA")] =
      ⟨0, 2, ["outA", "outA"], [], [],
        [(1, false, "Worker 0 timeout processing img1"), (2, true, "outA")]⟩ ∧
    (runEvents state0
      [.dispatch 1, .timeout 1 "Worker 0 timeout processing img1",
       .dispatch 2, .reply (.success "outA")]).completedJobs = 2 := by
  constructor <;> rfl

/-- C5 counterexample: a 13-byte input with valid header 2 by 2, one
channel, but only one payload byte: parseSimpleImage accepts it and
returns a buffer whose 13 bytes differ from width times height times
channels = 4, so a buffer violating the invariant does come out of
decode. -/
theorem decode_invariant_violation :
    parseSimpleImage [0, 0, 0, 2, 0, 0, 0, 2, 0, 0, 0, 1, 9] =
      Except.ok ⟨[0, 0, 0, 2, 0, 0, 0, 2, 0, 0, 0, 1, 9], 2, 2, 1⟩ ∧
    ¬ wfBuf ⟨[0, 0, 0, 2, 0, 0, 0, 2, 0, 0, 0, 1, 9], 2, 2, 1⟩ := by decide

/-- C5 amended: resize and toGrayscale always establish the invariant
that the byte count is width times height times channels, and decode
establishes it whenever the input length reaches
expected = 12 + width*height*channels; on shorter inputs with a valid
header decode returns a buffer violating the invariant (see the
counterexample). -/
theorem pixel_invariant (src : ImageData) (nW nH : Int)
    (h1 : 1 ≤ nW) (h2 : 1 ≤ nH) (hsc : 1 ≤ src.channels)
    (hsw : 1 ≤ src.width) (hsh : 1 ≤ src.height)
    (l : List Nat) (h12 : 12 ≤ l.length)
    (hw : 0 < readIntAt l 0) (hh : 0 < readIntAt l 4)
    (hc : 0 < readIntAt l 8) (hc4 : readIntAt l 8 ≤ 4)
    (hexp : 12 + (readIntAt l 0 * readIntAt l 4 * readIntAt l 8).toNat ≤ l.length) :
    wfBuf (resizeImage src nW nH) ∧ wfBuf (convertToGrayscale src) ∧
    ∃ img, parseSimpleImage l = Except.ok img ∧ wfBuf img := by
  refine ⟨?_, ?_, ?_⟩
  · unfold wfBuf resizeImage
    simp only [List.length_map, List.length_range]
    rw [toNat_mul3 nW nH src.channels (by omega) (by omega) (by omega)]
    ring
  · unfold wfBuf convertToGrayscale
    simp only [List.length_map, List.length_range, mul_one]
  · refine ⟨mkParsed l (readIntAt l 0) (readIntAt l 4) (readIntAt l 8),
      parse_spec l h12 hw hh hc hc4, ?_⟩
    rw [mkParsed_long l _ _ _ hexp]
    unfold wfBuf
    simp only [List.length_take, List.length_drop]
    omega

/-- C5 witness: the invariant evaluated on a concrete resize of a one
pixel RGB buffer to 2 by 2, its grayscale conversion, and the decode
of a well-formed 13-byte wire image. -/
theorem pixel_invariant_witness :
    wfBuf (resizeImage ⟨[5, 6, 7], 1, 1, 3⟩ 2 2) ∧
    wfBuf (convertToGrayscale ⟨[5, 6, 7], 1, 1, 3⟩) ∧
    ∃ img, parseSimpleImage [0, 0, 0, 1, 0, 0, 0, 1, 0, 0, 0, 1, 9] =
      Except.ok img ∧ wfBuf img :=
  pixel_invariant ⟨[5, 6, 7], 1, 1, 3⟩ 2 2 (by decide) (by decide) (by decide)
    (by decide) (by decide) [0, 0, 0, 1, 0, 0, 0, 1, 0, 0, 0, 1, 9] (by decide)
    (by decide) (by decide) (by decide) (by decide) (by decide)

theorem foldl_push_filterMap (outcomes : List JobResult) (acc : List String) :
    outcomes.foldl
      (fun acc r => match r with | .success out => acc ++ [out] | .failure _ => acc)
      acc =
    acc ++ outcomes.filterMap
      (fun r => match r with | .success out => some out | .failure _ => none) := by
  induction outcomes generalizing acc with
  | nil => simp
  | cons r t ih =>
    cases r with
    | success out => simp [ih]
    | failure m => simp [ih]

/-- C6 counterexample: a submitted batch of one job whose processing
fails yields an empty result list: the returned sequence has length 0,
not one record per job, and carries no failure record, refuting the
claim that the job submission API returns one success or failure
record for every submitted job. -/
theorem submit_drops_failed_jobs :
    processQueueModel [.failure "ENOENT: no such file"] = [] ∧
    (processQueueModel [.failure "ENOENT: no such file"]).length ≠
      [JobResult.failure "ENOENT: no such file"].length := by decide

/-- C6 amended: the job submission API returns only the output paths
of the successful jobs, in completion order; failed jobs contribute no
entry, so the length of the returned sequence is the number of
successes, at most and in general below the number of submitted jobs,
and no failure records are returned. -/
theorem submit_returns_success_paths (outcomes : List JobResult) :
    processQueueModel outcomes =
      outcomes.filterMap
        (fun r => match r with | .success out => some out | .failure _ => none) ∧
    (processQueueModel outcomes).length ≤ outcomes.length := by
  have h := foldl_push_filterMap outcomes []
  unfold processQueueModel
  rw [h]
  simp only [List.nil_append, true_and]
  exact List.length_filterMap_le _ _

/-- C7 counterexample: on the single RGB pixel (8, 80, 32) the source
computes 52 while the claimed truncation of the exact luminance
0.299*8 + 0.587*80 + 0.114*32 = 53.000 exactly is 53: the
single-precision evaluation used by the code lands just below the
exact integer value, so the output byte is not the truncation of the
exact luminance. -/
theorem grayscale_differs_from_exact_luminance :
    convertToGrayscale ⟨[8, 80, 32], 1, 1, 3⟩ = ⟨[52], 1, 1, 1⟩ ∧
    (299 * 8 + 587 * 80 + 114 * 32) / 1000 = 53 ∧ (52 : Nat) ≠ 53 := by decide

/-- C7 amended: on buffers with at least three channels every output
byte is the single-precision (binary32) evaluation of
0.299*R + 0.587*G + 0.114*B over the first three channels of the
pixel, truncated toward zero, which is bit-for-bit reproducible; the
three cited pixels evaluate to 76, 149 and 29 as claimed, but the
result can differ by one from the truncation of the exact luminance
(see the counterexample). -/
theorem grayscale_float_formula (src : ImageData) (hc : 3 ≤ src.channels) :
    (convertToGrayscale src).data =
      (List.range (src.width * src.height).toNat).map (fun i =>
        grayF32 (src.data.getD (i * src.channels.toNat) 0)
          (src.data.getD (i * src.channels.toNat + 1) 0)
          (src.data.getD (i * src.channels.toNat + 2) 0)) ∧
    grayF32 255 0 0 = 76 ∧ grayF32 0 255 0 = 149 ∧ grayF32 0 0 255 = 29 := by
  refine ⟨?_, by decide, by decide, by decide⟩
  unfold convertToGrayscale
  simp only [if_pos hc]

/-- C7 witness: the formula evaluated on a concrete one-pixel pure red
buffer, whose grayscale byte is 76. -/
theorem grayscale_float_formula_witness :
    (convertToGrayscale ⟨[255, 0, 0], 1, 1, 3⟩).data = [76] := by
  have h := grayscale_float_formula ⟨[255, 0, 0], 1, 1, 3⟩ (by decide)
  rw [h.1]
  decide

/-- C9: a source already within the bounds is returned unchanged by
the dimension computation: when the width is at most maxWidth and the
height at most maxHeight neither clamping branch fires, so there is no
upscaling. -/
theorem dims_no_upscale (w h maxW maxH : Int)
    (hw : 0 < w) (hh : 0 < h) (hmw : 0 < maxW) (hmh : 0 < maxH)
    (h1 : w ≤ maxW) (h2 : h ≤ maxH) :
    computeTargetDims w h maxW maxH = (w, h) := by
  simp only [computeTargetDims]
  rw [if_neg (by omega : ¬ maxW < w)]
  rw [if_neg (by simp only [Prod.snd]; omega : ¬ maxH < ((w, h) : Int × Int).2)]

/-- C9 witness: a 50 by 60 source inside 100 by 100 bounds keeps its
dimensions. -/
theorem dims_no_upscale_witness : computeTargetDims 50 60 100 100 = (50, 60) :=
  dims_no_upscale 50 60 100 100 (by decide) (by decide) (by decide) (by decide)
    (by decide) (by decide)

/-- C10: for a well-formed image and sample coordinates with
0 <= x <= width-1 and 0 <= y <= height-1, bilinearInterpolate only
reads in-bounds indices: the floor coordinates and the clamped
right/bottom neighbors all lie between 0 and the last row or column,
every flat index is below the data length, the defensive zero branch
is never taken (the function agrees with the unguarded variant
bilinearRaw), and the result is the truncation of a convex combination
of four source bytes, hence between 0 and 255, so the narrowing cast
to a byte never wraps. The blend is the exact rational convex
combination; binary32 rounding of the products and sums could push the
pre-cast value at most a few millionths above 255, which still
truncates to at most 255, so the no-wrap conclusion is unaffected. -/
theorem bilinear_safe (data : List Nat) (width height channels : Int)
    (x y : Rat) (channel : Int)
    (hw : 1 ≤ width) (hh : 1 ≤ height) (hc : 1 ≤ channels)
    (hch0 : 0 ≤ channel) (hch : channel < channels)
    (hlen : data.length = (width * height * channels).toNat)
    (hbytes : ∀ b ∈ data, b < 256)
    (hx0 : 0 ≤ x) (hx1 : x ≤ (width : Rat) - 1)
    (hy0 : 0 ≤ y) (hy1 : y ≤ (height : Rat) - 1) :
    (0 ≤ ⌊x⌋ ∧ ⌊x⌋ ≤ width - 1 ∧ 0 ≤ ⌊y⌋ ∧ ⌊y⌋ ≤ height - 1) ∧
    (∀ px py : Int, (px = ⌊x⌋ ∨ px = min (⌊x⌋ + 1) (width - 1)) →
      (py = ⌊y⌋ ∨ py = min (⌊y⌋ + 1) (height - 1)) →
      ((py * width + px) * channels + channel).toNat < data.length) ∧
    bilinearInterpolate data width height channels x y channel =
      bilinearRaw data width height channels x y channel ∧
    bilinearRaw data width height channels x y channel ≤ 255 := by
  have hfx0 : 0 ≤ ⌊x⌋ := Int.le_floor.mpr (by exact_mod_cast hx0)
  have hfy0 : 0 ≤ ⌊y⌋ := Int.le_floor.mpr (by exact_mod_cast hy0)
  have hfx1 : ⌊x⌋ ≤ width - 1 := by
    have h := Int.floor_le_floor (show x ≤ ((width - 1 : Int) : Rat) by push_cast; linarith)
    simpa [Int.floor_intCast] using h
  have hfy1 : ⌊y⌋ ≤ height - 1 := by
    have h := Int.floor_le_floor (show y ≤ ((height - 1 : Int) : Rat) by push_cast; linarith)
    simpa [Int.floor_intCast] using h
  have hWHC : (0:Int) < width * height * channels :=
    mul_pos (mul_pos (by omega) (by omega)) (by omega)
  have hidx : ∀ px py : Int, 0 ≤ px → px ≤ width - 1 → 0 ≤ py → py ≤ height - 1 →
      ((py * width + px) * channels + channel).toNat < data.length := by
    intro px py h1 h2 h3 h4
    have key : (py * width + px) * channels + channel < width * height * channels := by
      have s1 : py * width + px ≤ height * width - 1 := by nlinarith
      have s2 : (py * width + px) * channels ≤ (height * width - 1) * channels := by
        nlinarith
      nlinarith
    rw [hlen]
    omega
  refine ⟨⟨hfx0, hfx1, hfy0, hfy1⟩, ?_, ?_⟩
  · intro px py hpx hpy
    rcases hpx with rfl | rfl <;> rcases hpy with rfl | rfl <;>
      exact hidx _ _ (by omega) (by omega) (by omega) (by omega)
  · -- values and bounds
    have hdx0 : 0 ≤ x - (⌊x⌋ : Rat) := by
      have := Int.floor_le x
      linarith
    have hdx1 : x - (⌊x⌋ : Rat) ≤ 1 := by
      have := Int.lt_floor_add_one x
      push_cast at this
      linarith
    have hdy0 : 0 ≤ y - (⌊y⌋ : Rat) := by
      have := Int.floor_le y
      linarith
    have hdy1 : y - (⌊y⌋ : Rat) ≤ 1 := by
      have := Int.lt_floor_add_one y
      push_cast at this
      linarith
    have hval : ∀ i : Nat, ((data.getD i 0 : Nat) : Rat) ≤ 255 := by
      intro i
      have := getD_byte_lt data i hbytes
      exact_mod_cast Nat.lt_succ_iff.mp this
    have hval0 : ∀ i : Nat, (0:Rat) ≤ ((data.getD i 0 : Nat) : Rat) := by
      intro i
      positivity
    have g11 : ¬(⌊x⌋ < 0 ∨ width ≤ ⌊x⌋ ∨ ⌊y⌋ < 0 ∨ height ≤ ⌊y⌋) := by omega
    have g21 : ¬(min (⌊x⌋ + 1) (width - 1) < 0 ∨ width ≤ min (⌊x⌋ + 1) (width - 1) ∨
        ⌊y⌋ < 0 ∨ height ≤ ⌊y⌋) := by omega
    have g12 : ¬(⌊x⌋ < 0 ∨ width ≤ ⌊x⌋ ∨ min (⌊y⌋ + 1) (height - 1) < 0 ∨
        height ≤ min (⌊y⌋ + 1) (height - 1)) := by omega
    have g22 : ¬(min (⌊x⌋ + 1) (width - 1) < 0 ∨ width ≤ min (⌊x⌋ + 1) (width - 1) ∨
        min (⌊y⌋ + 1) (height - 1) < 0 ∨ height ≤ min (⌊y⌋ + 1) (height - 1)) := by omega
    unfold bilinearInterpolate bilinearRaw
    simp only [if_neg g11, if_neg g21, if_neg g12, if_neg g22]
    set a : Rat := (data.getD ((⌊y⌋ * width + ⌊x⌋) * channels + channel).toNat 0 : Rat) with ha
    set b : Rat := (data.getD ((⌊y⌋ * width + min (⌊x⌋ + 1) (width - 1)) * channels + channel).toNat 0 : Rat) with hb
    set c : Rat := (data.getD ((min (⌊y⌋ + 1) (height - 1) * width + ⌊x⌋) * channels + channel).toNat 0 : Rat) with hcq
    set d : Rat := (data.getD ((min (⌊y⌋ + 1) (height - 1) * width + min (⌊x⌋ + 1) (width - 1)) * channels + channel).toNat 0 : Rat) with hd
    set dx : Rat := x - (⌊x⌋ : Rat) with hdx
    set dy : Rat := y - (⌊y⌋ : Rat) with hdy
    have ha0 : (0:Rat) ≤ a := hval0 _
    have hb0 : (0:Rat) ≤ b := hval0 _
    have hc0 : (0:Rat) ≤ c := hval0 _
    have hd0 : (0:Rat) ≤ d := hval0 _
    have ha1 : a ≤ 255 := hval _
    have hb1 : b ≤ 255 := hval _
    have hc1 : c ≤ 255 := hval _
    have hd1 : d ≤ 255 := hval _
    have h1mdx : (0:Rat) ≤ 1 - dx := by linarith
    have h1mdy : (0:Rat) ≤ 1 - dy := by linarith
    have htop0 : 0 ≤ a * (1 - dx) + b * dx :=
      add_nonneg (mul_nonneg ha0 h1mdx) (mul_nonneg hb0 hdx0)
    have hbot0 : 0 ≤ c * (1 - dx) + d * dx :=
      add_nonneg (mul_nonneg hc0 h1mdx) (mul_nonneg hd0 hdx0)
    have htop255 : a * (1 - dx) + b * dx ≤ 255 := by
      have e1 : a * (1 - dx) ≤ 255 * (1 - dx) := mul_le_mul_of_nonneg_right ha1 h1mdx
      have e2 : b * dx ≤ 255 * dx := mul_le_mul_of_nonneg_right hb1 hdx0
      linarith
    have hbot255 : c * (1 - dx) + d * dx ≤ 255 := by
      have e1 : c * (1 - dx) ≤ 255 * (1 - dx) := mul_le_mul_of_nonneg_right hc1 h1mdx
      have e2 : d * dx ≤ 255 * dx := mul_le_mul_of_nonneg_right hd1 hdx0
      linarith
    have hT0 : 0 ≤ (a * (1 - dx) + b * dx) * (1 - dy) + (c * (1 - dx) + d * dx) * dy :=
      add_nonneg (mul_nonneg htop0 h1mdy) (mul_nonneg hbot0 hdy0)
    have hT255 : (a * (1 - dx) + b * dx) * (1 - dy) + (c * (1 - dx) + d * dx) * dy ≤ 255 := by
      have e1 : (a * (1 - dx) + b * dx) * (1 - dy) ≤ 255 * (1 - dy) :=
        mul_le_mul_of_nonneg_right htop255 h1mdy
      have e2 : (c * (1 - dx) + d * dx) * dy ≤ 255 * dy :=
        mul_le_mul_of_nonneg_right hbot255 hdy0
      linarith
    have htr : truncQ ((a * (1 - dx) + b * dx) * (1 - dy) + (c * (1 - dx) + d * dx) * dy) =
        ⌊(a * (1 - dx) + b * dx) * (1 - dy) + (c * (1 - dx) + d * dx) * dy⌋ := by
      unfold truncQ
      rw [if_neg (not_lt.mpr hT0)]
    have hfl255 : ⌊(a * (1 - dx) + b * dx) * (1 - dy) + (c * (1 - dx) + d * dx) * dy⌋ ≤ 255 := by
      have h := Int.floor_le_floor (show (a * (1 - dx) + b * dx) * (1 - dy) + (c * (1 - dx) + d * dx) * dy ≤ ((255 : Int) : Rat) by push_cast; linarith)
      simpa [Int.floor_intCast] using h
    have hfl0 : 0 ≤ ⌊(a * (1 - dx) + b * dx) * (1 - dy) + (c * (1 - dx) + d * dx) * dy⌋ :=
      Int.le_floor.mpr (by exact_mod_cast hT0)
    constructor
    · unfold uint8cast
      rw [htr]
      omega
    · rw [htr]
      omega

theorem uint8cast_natCast (n : Nat) (h : n < 256) : uint8cast (n : Rat) = n := by
  unfold uint8cast truncQ
  rw [if_neg (not_lt.mpr (by positivity)), Int.floor_natCast, Int.toNat_natCast,
    Nat.mod_eq_of_lt h]

theorem bilinear_at_int (data : List Nat) (W H C xn yn cn : Nat)
    (hW : 0 < W) (hH : 0 < H) (hC : 0 < C)
    (hx : xn < W) (hy : yn < H) (hcn : cn < C)
    (hbytes : ∀ b ∈ data, b < 256) :
    bilinearInterpolate data (W : Int) (H : Int) (C : Int)
      (xn : Rat) (yn : Rat) (cn : Int) =
      data.getD ((yn * W + xn) * C + cn) 0 := by
  unfold bilinearInterpolate
  simp only [Int.floor_natCast, Int.cast_natCast, sub_self, mul_zero, mul_one,
    sub_zero, add_zero]
  rw [if_neg (by push_cast; omega)]
  have hidx : ((yn : Int) * (W : Int) + (xn : Int)) * (C : Int) + (cn : Int) =
      (((yn * W + xn) * C + cn : Nat) : Int) := by push_cast; ring
  rw [hidx, Int.toNat_natCast]
  exact uint8cast_natCast _ (getD_byte_lt data _ hbytes)

theorem bitlen_le_of_lt (f b n : Nat) (hb : b ≤ f) (h : n < 2 ^ b) : bitlen f n ≤ b := by
  induction f generalizing b n with
  | zero => simp [bitlen]
  | succ f ih =>
    unfold bitlen
    split
    · omega
    · rename_i hn
      cases b with
      | zero => simp at h; omega
      | succ b' =>
        have hdiv : n / 2 < 2 ^ b' := by
          rw [Nat.div_lt_iff_lt_mul (by omega)]
          calc n < 2 ^ (b' + 1) := h
            _ = 2 ^ b' * 2 := by ring
        have := ih b' (n / 2) (by omega) hdiv
        omega

theorem roundDy_small (m e : Int) (h : m.natAbs < 2 ^ 24) : roundDy ⟨m, e⟩ = ⟨m, e⟩ := by
  unfold roundDy
  rw [if_pos (bitlen_le_of_lt 300 24 _ (by omega) h)]

theorem floatOfInt_small (n : Int) (h : n.natAbs < 2 ^ 24) : floatOfInt n = ⟨n, 0⟩ :=
  roundDy_small n 0 h

theorem findScale_min (s : Nat) : ∀ (f x t : Nat), s ≤ f → t ≤ x * 2 ^ s →
    (∀ j, j < s → ¬ t ≤ x * 2 ^ j) → findScale f x t = s := by
  induction s with
  | zero =>
    intro f x t hf hup hlow
    cases f with
    | zero => rfl
    | succ f' =>
      unfold findScale
      rw [if_pos (by simpa using hup)]
  | succ s' ih =>
    intro f x t hf hup hlow
    cases f with
    | zero => omega
    | succ f' =>
      unfold findScale
      rw [if_neg (by simpa using hlow 0 (by omega))]
      have hrec := ih f' (2 * x) t (by omega)
        (by calc t ≤ x * 2 ^ (s' + 1) := hup
              _ = 2 * x * 2 ^ s' := by ring)
        (fun j hj => by
          have hl := hlow (j + 1) (by omega)
          intro hcon
          exact hl (by calc t ≤ 2 * x * 2 ^ j := hcon
                         _ = x * 2 ^ (j + 1) := by ring))
      omega

theorem findScale_self (M : Nat) (hM : 1 ≤ M) : findScale 300 M (2 ^ 23 * M) = 23 := by
  refine findScale_min 23 300 M (2 ^ 23 * M) (by omega)
    (by rw [Nat.mul_comm]) ?_
  intro j hj hcon
  have h1 : 2 ^ j < 2 ^ 23 := Nat.pow_lt_pow_right (by omega) hj
  have h2 : M * 2 ^ j < M * 2 ^ 23 := mul_lt_mul_of_pos_left h1 (by omega)
  have h3 : 2 ^ 23 * M = M * 2 ^ 23 := Nat.mul_comm _ _
  linarith

theorem fdivF32_self (d : Dy) (hm : 0 < d.m) : fdivF32 d d = ⟨2 ^ 23, -23⟩ := by
  have hM : 1 ≤ d.m.natAbs := by
    have := Int.natAbs_pos.mpr (show d.m ≠ 0 by omega)
    omega
  simp only [fdivF32]
  rw [if_neg (by omega)]
  rw [findScale_self d.m.natAbs hM]
  rw [Nat.mul_div_cancel_left _ (by omega : 0 < d.m.natAbs), Nat.mul_mod_right]
  rw [if_pos (by omega : 2 * 0 < d.m.natAbs)]
  rw [Int.sign_eq_one_iff_pos.mpr hm]
  have h1 : ((2 ^ 23 : Nat) : Int) * (1 * 1) = ((2 ^ 23 : Int)) := by norm_num
  have h2 : d.e - d.e - ((23 : Nat) : Int) = -23 := by omega
  rw [h1, h2, roundDy_small _ _ (by decide)]

theorem roundDy_scaled (xn : Nat) (h1 : 1 ≤ xn) (h2 : xn < 2 ^ 24) :
    Dy.toRat (roundDy ⟨((xn * 2 ^ 23 : Nat) : Int), -23⟩) = (xn : Rat) := by
  have hNpos : 1 ≤ xn * 2 ^ 23 := Nat.mul_pos h1 (by positivity)
  simp only [roundDy, Int.natAbs_ofNat]
  by_cases hL : bitlen 300 (xn * 2 ^ 23) ≤ 24
  · rw [if_pos hL]
    simp only [Dy.toRat]
    rw [if_neg (by omega)]
    norm_num
    push_cast
    norm_num
  · rw [if_neg hL]
    set L := bitlen 300 (xn * 2 ^ 23) with hLdef
    have hup : L ≤ 47 := by
      rw [hLdef]
      refine bitlen_le_of_lt 300 47 _ (by omega) ?_
      calc xn * 2 ^ 23 < 2 ^ 24 * 2 ^ 23 := by
            exact mul_lt_mul_of_pos_right h2 (by positivity)
        _ = 2 ^ 47 := by norm_num
    have hk1 : 1 ≤ L - 24 := by omega
    have hk23 : L - 24 ≤ 23 := by omega
    have hdvd : 2 ^ (L - 24) ∣ xn * 2 ^ 23 :=
      Dvd.dvd.mul_left (pow_dvd_pow 2 (by omega)) xn
    have hr : xn * 2 ^ 23 % 2 ^ (L - 24) = 0 := Nat.mod_eq_zero_of_dvd hdvd
    rw [hr]
    rw [if_pos (by positivity : 0 < 2 ^ (L - 24 - 1))]
    have hq : xn * 2 ^ 23 / 2 ^ (L - 24) = xn * 2 ^ (23 - (L - 24)) := by
      have hsplit : xn * 2 ^ 23 = xn * 2 ^ (23 - (L - 24)) * 2 ^ (L - 24) := by
        rw [Nat.mul_assoc, ← pow_add]
        congr 2
        omega
      rw [hsplit,
        Nat.mul_div_cancel _ (by positivity : 0 < 2 ^ (L - 24))]
    rw [hq]
    rw [Int.sign_eq_one_iff_pos.mpr (by exact_mod_cast hNpos)]
    simp only [Dy.toRat, mul_one]
    by_cases hke : L - 24 = 23
    · rw [if_pos (by omega : (0:Int) ≤ -23 + ((L - 24 : Nat) : Int))]
      have he0 : ((-23 + ((L - 24 : Nat) : Int))).toNat = 0 := by omega
      rw [he0, hke]
      norm_num
    · rw [if_neg (by omega : ¬ (0:Int) ≤ -23 + ((L - 24 : Nat) : Int))]
      have he : (-(-23 + ((L - 24 : Nat) : Int))).toNat = 23 - (L - 24) := by omega
      rw [he]
      push_cast
      rw [mul_div_assoc, div_self (by positivity), mul_one]

theorem mulF32_unit (xn : Nat) (h : xn ≤ 2 ^ 24) :
    Dy.toRat (mulF32 (floatOfInt (xn : Int)) ⟨2 ^ 23, -23⟩) = (xn : Rat) := by
  rcases Nat.lt_or_ge xn (2 ^ 24) with hlt | hge
  · rcases Nat.eq_zero_or_pos xn with h0 | hpos
    · subst h0
      have hz : mulF32 (floatOfInt ((0 : Nat) : Int)) ⟨2 ^ 23, -23⟩ = ⟨0, -23⟩ := by
        decide
      rw [hz]
      simp [Dy.toRat]
    · rw [floatOfInt_small _ (by simpa using hlt)]
      show Dy.toRat (roundDy ⟨(xn : Int) * 2 ^ 23, 0 + -23⟩) = (xn : Rat)
      have hm : ((xn : Int) * 2 ^ 23) = ((xn * 2 ^ 23 : Nat) : Int) := by
        push_cast
        ring
      rw [hm, zero_add]
      exact roundDy_scaled xn hpos hlt
  · have hx : xn = 2 ^ 24 := by omega
    subst hx
    have h1 : mulF32 (floatOfInt ((2 ^ 24 : Nat) : Int)) ⟨2 ^ 23, -23⟩ =
        ⟨2 ^ 23, 1⟩ := by decide
    rw [h1]
    simp only [Dy.toRat]
    norm_num

theorem floatOfInt_pos_m (W : Nat) (h1 : 1 ≤ W) (h2 : W ≤ 2 ^ 24 + 1) :
    0 < (floatOfInt ((W : Nat) : Int)).m := by
  rcases Nat.lt_or_ge W (2 ^ 24) with hlt | hge
  · rw [floatOfInt_small _ (by simpa using hlt)]
    show (0 : Int) < (W : Int)
    exact_mod_cast h1
  · have : W = 2 ^ 24 ∨ W = 2 ^ 24 + 1 := by omega
    rcases this with rfl | rfl
    · have : floatOfInt ((2 ^ 24 : Nat) : Int) = ⟨2 ^ 23, 1⟩ := by decide
      rw [this]
      norm_num
    · have : floatOfInt ((2 ^ 24 + 1 : Nat) : Int) = ⟨2 ^ 23, 1⟩ := by decide
      rw [this]
      norm_num

theorem getD_replicate_lt (n i a d : Nat) (h : i < n) :
    (List.replicate n a).getD i d = a := by
  rw [List.getD_eq_getElem _ _ (by simpa using h)]
  exact List.getElem_replicate a _

theorem getD_map_range (f : Nat → Nat) (n i : Nat) (h : i < n) :
    ((List.range n).map f).getD i 0 = f i := by
  rw [List.getD_eq_getElem _ _ (by simpa using h)]
  simp

/-- C8 counterexample: a well-formed one-row buffer of width 2^24 + 2
on which resizing to the own dimensions is not the identity: for the
last column x = 2^24 + 1 the source computes srcX = (float)x * 1.0f,
and the conversion of 2^24 + 1 to binary32 rounds to 2^24 (ties to
even), so the output copies column 2^24 (byte 0) into column 2^24 + 1,
where the source holds byte 1. This refutes the claim that same-size
resize reproduces every well-formed source exactly. -/
theorem resize_not_identity_at_huge_width :
    resizeImage ⟨List.replicate (2 ^ 24 + 1) 0 ++ [1], 2 ^ 24 + 2, 1, 1⟩
        (2 ^ 24 + 2) 1 ≠
      ⟨List.replicate (2 ^ 24 + 1) 0 ++ [1], 2 ^ 24 + 2, 1, 1⟩ ∧
    (List.replicate (2 ^ 24 + 1) (0 : Nat) ++ [1]).length =
      ((2 ^ 24 + 2 : Int) * 1 * 1).toNat ∧
    (∀ b ∈ List.replicate (2 ^ 24 + 1) (0 : Nat) ++ [1], b < 256) := by
  have hby : ∀ b ∈ List.replicate (2 ^ 24 + 1) (0 : Nat) ++ [1], b < 256 := by
    intro b hb
    rcases List.mem_append.mp hb with hb | hb
    · rw [List.eq_of_mem_replicate hb]
      omega
    · rw [List.mem_singleton.mp hb]
      omega
  refine ⟨?_,
    by rw [List.length_append, List.length_replicate, List.length_singleton]; decide,
    hby⟩
  intro hcontra
  have hd : (resizeImage ⟨List.replicate (2 ^ 24 + 1) 0 ++ [1], 2 ^ 24 + 2, 1, 1⟩
      (2 ^ 24 + 2) 1).data = List.replicate (2 ^ 24 + 1) 0 ++ [1] :=
    congrArg ImageData.data hcontra
  have hR : (List.replicate (2 ^ 24 + 1) (0 : Nat) ++ [1]).getD (2 ^ 24 + 1) 0 = 1 := by
    rw [List.getD_append_right _ _ _ _
      (by rw [List.length_replicate] : (List.replicate (2 ^ 24 + 1) (0 : Nat)).length ≤ 2 ^ 24 + 1)]
    rw [List.length_replicate, Nat.sub_self]
    rfl
  have hmid : (List.replicate (2 ^ 24 + 1) (0 : Nat) ++ [1]).getD (2 ^ 24) 0 = 0 := by
    rw [List.getD_append _ _ _ _ (by rw [List.length_replicate]; decide)]
    exact getD_replicate_lt _ _ _ _ (by decide)
  have hLHS : (resizeImage ⟨List.replicate (2 ^ 24 + 1) 0 ++ [1], 2 ^ 24 + 2, 1, 1⟩
      (2 ^ 24 + 2) 1).data.getD (2 ^ 24 + 1) 0 = 0 := by
    have hxr : fdivF32 (floatOfInt (2 ^ 24 + 2 : Int)) (floatOfInt (2 ^ 24 + 2 : Int)) =
        ⟨2 ^ 23, -23⟩ := by decide
    have hsx : mulF32 (floatOfInt ((2 ^ 24 + 1 : Nat) : Int)) ⟨2 ^ 23, -23⟩ =
        ⟨2 ^ 23, 1⟩ := by decide
    have hyr : fdivF32 (floatOfInt (1 : Int)) (floatOfInt (1 : Int)) =
        ⟨2 ^ 23, -23⟩ := by decide
    have hsy : mulF32 (floatOfInt ((0 : Nat) : Int)) ⟨2 ^ 23, -23⟩ = ⟨0, -23⟩ := by
      decide
    have htx : Dy.toRat ⟨2 ^ 23, 1⟩ = ((2 ^ 24 : Nat) : Rat) := by
      simp only [Dy.toRat]
      norm_num
    have hty : Dy.toRat ⟨0, -23⟩ = ((0 : Nat) : Rat) := by
      simp only [Dy.toRat]
      norm_num
    have hcast : ((2 ^ 24 + 2 : Nat) : Int) = (2 ^ 24 + 2 : Int) := by norm_num
    have hone : ((1 : Nat) : Int) = (1 : Int) := by norm_num
    have hbil := bilinear_at_int (List.replicate (2 ^ 24 + 1) 0 ++ [1])
      (2 ^ 24 + 2) 1 1 (2 ^ 24) 0 0 (by omega) (by omega) (by omega)
      (by omega) (by omega) (by omega) hby
    rw [hcast, hone] at hbil
    have hidx : ((0 : Nat) * (2 ^ 24 + 2) + 2 ^ 24) * 1 + 0 = 2 ^ 24 := by norm_num
    rw [hidx] at hbil
    simp only [resizeImage]
    rw [getD_map_range _ _ _ (by decide)]
    have i1 : (2 ^ 24 + 1) / (1 : Int).toNat % (2 ^ 24 + 2 : Int).toNat =
        2 ^ 24 + 1 := by decide
    have i2 : (2 ^ 24 + 1) / ((2 ^ 24 + 2 : Int).toNat * (1 : Int).toNat) = 0 := by
      decide
    have i3 : (2 ^ 24 + 1) % (1 : Int).toNat = 0 := by decide
    rw [i1, i2, i3, hxr, hyr, hsx, hsy, htx, hty, hbil, hmid]
  rw [hd, hR] at hLHS
  exact absurd hLHS (by omega)

/-- C8 amended: resize returns a buffer of exactly dstW times dstH
times channels bytes with the channel count of the source for every
positive target; and for sources whose width and height are at most
2^24 + 1, so that every row and column index converts to binary32
exactly, resizing a well-formed buffer to its own dimensions
reproduces the source exactly: the scale ratios round to exactly 1,
the sample coordinates are the integer indices, the fractional offsets
vanish and each output byte is the source byte. Above that bound the
index conversion rounds and the identity fails, see the
counterexample. -/
theorem resize_contract (src : ImageData)
    (hw : 1 ≤ src.width) (hh : 1 ≤ src.height) (hc : 1 ≤ src.channels)
    (hwB : src.width ≤ 2 ^ 24 + 1) (hhB : src.height ≤ 2 ^ 24 + 1)
    (hlen : src.data.length = (src.width * src.height * src.channels).toNat)
    (hbytes : ∀ b ∈ src.data, b < 256) :
    (∀ nW nH : Int, 1 ≤ nW → 1 ≤ nH →
      (resizeImage src nW nH).data.length = (nW * nH * src.channels).toNat ∧
      (resizeImage src nW nH).channels = src.channels) ∧
    resizeImage src src.width src.height = src := by
  obtain ⟨data, w, h, c⟩ := src
  dsimp only at hw hh hc hwB hhB hlen hbytes ⊢
  constructor
  · intro nW nH h1 h2
    constructor
    · unfold resizeImage
      simp only [List.length_map, List.length_range]
      rw [toNat_mul3 nW nH c (by omega) (by omega) (by omega)]
      ring
    · rfl
  · lift w to ℕ using (by omega : (0:Int) ≤ w) with W
    lift h to ℕ using (by omega : (0:Int) ≤ h) with H
    lift c to ℕ using (by omega : (0:Int) ≤ c) with C
    have hW : 0 < W := by exact_mod_cast hw
    have hH : 0 < H := by exact_mod_cast hh
    have hC : 0 < C := by exact_mod_cast hc
    have hWB : W ≤ 2 ^ 24 + 1 := by exact_mod_cast hwB
    have hHB : H ≤ 2 ^ 24 + 1 := by exact_mod_cast hhB
    have hlenN : data.length = H * (W * C) := by
      have hcast : ((W : Int) * (H : Int) * (C : Int)) = ((W * H * C : Nat) : Int) := by
        push_cast
        ring
      rw [hcast, Int.toNat_natCast] at hlen
      rw [hlen]
      ring
    unfold resizeImage
    have hfdx : fdivF32 (floatOfInt ((W : Nat) : Int)) (floatOfInt ((W : Nat) : Int)) =
        ⟨2 ^ 23, -23⟩ := fdivF32_self _ (floatOfInt_pos_m W hW hWB)
    have hfdy : fdivF32 (floatOfInt ((H : Nat) : Int)) (floatOfInt ((H : Nat) : Int)) =
        ⟨2 ^ 23, -23⟩ := fdivF32_self _ (floatOfInt_pos_m H hH hHB)
    simp only [Int.toNat_natCast, hfdx, hfdy]
    have hdata :
        (List.range (H * (W * C))).map (fun i =>
          bilinearInterpolate data (W : Int) (H : Int) (C : Int)
            (Dy.toRat (mulF32 (floatOfInt ((i / C % W : Nat) : Int)) ⟨2 ^ 23, -23⟩))
            (Dy.toRat (mulF32 (floatOfInt ((i / (W * C) : Nat) : Int)) ⟨2 ^ 23, -23⟩))
            ((i % C : Nat) : Int)) = data := by
      have hsame : ∀ i ∈ List.range (H * (W * C)),
          bilinearInterpolate data (W : Int) (H : Int) (C : Int)
            (Dy.toRat (mulF32 (floatOfInt ((i / C % W : Nat) : Int)) ⟨2 ^ 23, -23⟩))
            (Dy.toRat (mulF32 (floatOfInt ((i / (W * C) : Nat) : Int)) ⟨2 ^ 23, -23⟩))
            ((i % C : Nat) : Int) = data.getD i 0 := by
        intro i hi
        have hi2 : i < H * (W * C) := List.mem_range.mp hi
        have hxn : i / C % W < W := Nat.mod_lt _ hW
        have hyn : i / (W * C) < H := (Nat.div_lt_iff_lt_mul (by positivity)).mpr hi2
        rw [mulF32_unit (i / C % W) (by omega), mulF32_unit (i / (W * C)) (by omega)]
        rw [bilinear_at_int data W H C (i / C % W) (i / (W * C)) (i % C) hW hH hC
          hxn hyn (Nat.mod_lt _ hC) hbytes]
        rw [idx_decomp]
      rw [List.map_congr_left hsame, ← hlenN, map_range_getD]
    rw [hdata]

/-- C8 witness: a concrete 2 by 2 single-channel buffer resized to its
own dimensions reproduces itself, with the stated length and channel
contract. -/
theorem resize_contract_witness :
    (∀ nW nH : Int, 1 ≤ nW → 1 ≤ nH →
      (resizeImage ⟨[10, 20, 30, 40], 2, 2, 1⟩ nW nH).data.length =
        (nW * nH * 1).toNat ∧
      (resizeImage ⟨[10, 20, 30, 40], 2, 2, 1⟩ nW nH).channels = 1) ∧
    resizeImage ⟨[10, 20, 30, 40], 2, 2, 1⟩ 2 2 = ⟨[10, 20, 30, 40], 2, 2, 1⟩ :=
  resize_contract ⟨[10, 20, 30, 40], 2, 2, 1⟩ (by decide) (by decide) (by decide)
    (by decide) (by decide) (by decide) (by decide)

/-- C10 witness: the safety contract evaluated on a concrete 2 by 2
single-channel buffer at the sample point (0, 1). -/
theorem bilinear_safe_witness :
    (0 ≤ ⌊(0 : Rat)⌋ ∧ ⌊(0 : Rat)⌋ ≤ 2 - 1 ∧ 0 ≤ ⌊(1 : Rat)⌋ ∧ ⌊(1 : Rat)⌋ ≤ 2 - 1) ∧
    (∀ px py : Int, (px = ⌊(0 : Rat)⌋ ∨ px = min (⌊(0 : Rat)⌋ + 1) (2 - 1)) →
      (py = ⌊(1 : Rat)⌋ ∨ py = min (⌊(1 : Rat)⌋ + 1) (2 - 1)) →
      ((py * 2 + px) * 1 + 0).toNat < [10, 20, 30, 40].length) ∧
    bilinearInterpolate [10, 20, 30, 40] 2 2 1 0 1 0 =
      bilinearRaw [10, 20, 30, 40] 2 2 1 0 1 0 ∧
    bilinearRaw [10, 20, 30, 40] 2 2 1 0 1 0 ≤ 255 :=
  bilinear_safe [10, 20, 30, 40] 2 2 1 0 1 0 (by decide) (by decide) (by decide)
    (by decide) (by decide) (by decide) (by decide) (by norm_num) (by norm_num)
    (by norm_num) (by norm_num)

/-- C6 witness: the amended submission contract evaluated on a
concrete batch of three jobs, the middle one failing. -/
theorem submit_returns_success_paths_witness :
    processQueueModel [.success "a", .failure "x", .success "b"] =
      [JobResult.success "a", .failure "x", .success "b"].filterMap
        (fun r => match r with | .success out => some out | .failure _ => none) ∧
    (processQueueModel [.success "a", .failure "x", .success "b"]).length ≤
      [JobResult.success "a", .failure "x", .success "b"].length :=
  submit_returns_success_paths [.success "a", .failure "x", .success "b"]
